import Mathlib

/-!
Verification of the image-payload extractor and surrounding glue of the
`freedomstandard` Streamlit app (`src/app.py`).

The Python response graph is shallowly embedded as a heap of records
(`Obj`, addressed by identity) together with immediate values (`Val`).
Bytes are `List Nat` (each entry below 256); base64 encoding/decoding
models CPython's `base64.b64encode` / `base64.b64decode` (default
`validate := false` behaviour: characters outside the alphabet are
discarded, a completed padding group ends the decode, and leftover
characters at the end raise, which the embedding signals as
`Option.none`).  The breadth-first search of `collect_image_bytes` is
embedded with explicit fuel; a theorem shows the computed fuel always
suffices, which is the termination argument the visited set provides in
the source.
-/

namespace FreedomStandard

abbrev Bytes := List Nat

/-- The base64 alphabet, in value order (`A`..`Z`, `a`..`z`, `0`..`9`, `+`, `/`). -/
def b64Chars : List Char :=
  ['A','B','C','D','E','F','G','H','I','J','K','L','M',
   'N','O','P','Q','R','S','T','U','V','W','X','Y','Z',
   'a','b','c','d','e','f','g','h','i','j','k','l','m',
   'n','o','p','q','r','s','t','u','v','w','x','y','z',
   '0','1','2','3','4','5','6','7','8','9','+','/']

/-- Character for a 6-bit value. -/
def b64Char (v : Nat) : Char := b64Chars.getD v 'A'

/-- 6-bit value of a base64 alphabet character, `Option.none` for anything else. -/
def b64CharVal (c : Char) : Option Nat :=
  if 'A' ≤ c ∧ c ≤ 'Z' then some (c.toNat - 65)
  else if 'a' ≤ c ∧ c ≤ 'z' then some (c.toNat - 97 + 26)
  else if '0' ≤ c ∧ c ≤ '9' then some (c.toNat - 48 + 52)
  else if c = '+' then some 62
  else if c = '/' then some 63
  else Option.none

/-- Standard base64 encoding of a byte list, with `=` padding
(CPython `base64.b64encode`). -/
def b64EncodeList : List Nat → List Char
  | [] => []
  | [a] => [b64Char (a / 4), b64Char (a % 4 * 16), '=', '=']
  | [a, b] => [b64Char (a / 4), b64Char (a % 4 * 16 + b / 16), b64Char (b % 16 * 4), '=']
  | a :: b :: c :: rest =>
    b64Char (a / 4) :: b64Char (a % 4 * 16 + b / 16) ::
      b64Char (b % 16 * 4 + c / 64) :: b64Char (c % 64) :: b64EncodeList rest

def b64encode (bs : Bytes) : String := String.mk (b64EncodeList bs)

/-- The three bytes encoded by a full quad of 6-bit values. -/
def flush3 (p q r s : Nat) : List Nat :=
  [p * 4 + q / 16, q % 16 * 16 + r / 4, r % 4 * 64 + s]

/-- Bytes emitted when `=` padding completes a quad of two or three data
characters. -/
def padFlush : List Nat → List Nat
  | [p, q] => [p * 4 + q / 16]
  | [p, q, r] => [p * 4 + q / 16, q % 16 * 16 + r / 4]
  | _ => []

/-- The decoding automaton of CPython `binascii.a2b_base64` in
non-strict mode: invalid characters are skipped, a `=` completing the
padding of a quad of at least two data characters finishes the decode,
and a non-empty quad left at the end of input is an error. -/
def b64DecodeLoop : List Char → List Nat → Nat → List Nat → Option (List Nat)
  | [], quad, _, out => if quad.isEmpty then some out else Option.none
  | c :: rest, quad, pads, out =>
    if c = '=' then
      if 2 ≤ quad.length then
        if 4 ≤ quad.length + pads + 1 then some (out ++ padFlush quad)
        else b64DecodeLoop rest quad (pads + 1) out
      else b64DecodeLoop rest quad pads out
    else
      match b64CharVal c with
      | Option.none => b64DecodeLoop rest quad pads out
      | some v =>
        match quad with
        | [p, q, r] => b64DecodeLoop rest [] 0 (out ++ flush3 p q r v)
        | _ => b64DecodeLoop rest (quad ++ [v]) 0 out

def b64decodeList (cs : List Char) : Option Bytes := b64DecodeLoop cs [] 0 []

/-- `base64.b64decode` on a string; `Option.none` models the
`binascii.Error` that `decode_image_data` catches. -/
def b64decode (s : String) : Option Bytes := b64decodeList s.data

theorem b64Char_spec : ∀ v, v < 64 → b64CharVal (b64Char v) = some v ∧ ¬ b64Char v = '=' := by
  decide

theorem flush3_bytes (a b c : Nat) (hb : b < 256) (hc : c < 256) :
    flush3 (a / 4) (a % 4 * 16 + b / 16) (b % 16 * 4 + c / 64) (c % 64) = [a, b, c] := by
  unfold flush3
  have h1 : a / 4 * 4 + (a % 4 * 16 + b / 16) / 16 = a := by omega
  have h2 : (a % 4 * 16 + b / 16) % 16 * 16 + (b % 16 * 4 + c / 64) / 4 = b := by omega
  have h3 : (b % 16 * 4 + c / 64) % 4 * 64 + c % 64 = c := by omega
  rw [h1, h2, h3]

theorem b64DecodeLoop_encode :
    ∀ (bs : Bytes), (∀ x ∈ bs, x < 256) → ∀ (out : List Nat),
      b64DecodeLoop (b64EncodeList bs) [] 0 out = some (out ++ bs)
  | [], _, out => by simp [b64EncodeList, b64DecodeLoop]
  | [a], hb, out => by
    have ha : a < 256 := hb a (by simp)
    have s1 := b64Char_spec (a / 4) (by omega)
    have s2 := b64Char_spec (a % 4 * 16) (by omega)
    simp [b64EncodeList, b64DecodeLoop, s1.1, s1.2, s2.1, s2.2, padFlush]
    omega
  | [a, b], hb, out => by
    have ha : a < 256 := hb a (by simp)
    have hb' : b < 256 := hb b (by simp)
    have s1 := b64Char_spec (a / 4) (by omega)
    have s2 := b64Char_spec (a % 4 * 16 + b / 16) (by omega)
    have s3 := b64Char_spec (b % 16 * 4) (by omega)
    simp [b64EncodeList, b64DecodeLoop, s1.1, s1.2, s2.1, s2.2, s3.1, s3.2, padFlush]
    constructor
    · omega
    · omega
  | a :: b :: c :: rest, hb, out => by
    have ha : a < 256 := hb a (by simp)
    have hbb : b < 256 := hb b (by simp)
    have hc : c < 256 := hb c (by simp)
    have s1 := b64Char_spec (a / 4) (by omega)
    have s2 := b64Char_spec (a % 4 * 16 + b / 16) (by omega)
    have s3 := b64Char_spec (b % 16 * 4 + c / 64) (by omega)
    have s4 := b64Char_spec (c % 64) (by omega)
    have ih := b64DecodeLoop_encode rest (fun x hx => hb x (by simp [hx]))
      (out ++ [a, b, c])
    simp [b64EncodeList, b64DecodeLoop, s1.1, s1.2, s2.1, s2.2, s3.1, s3.2, s4.1, s4.2]
    rw [flush3_bytes a b c hbb hc, ih]
    simp

theorem b64_roundtrip (bs : Bytes) (hb : ∀ x ∈ bs, x < 256) :
    b64decode (b64encode bs) = some bs := by
  have h := b64DecodeLoop_encode bs hb []
  simpa [b64decode, b64encode, b64decodeList] using h

/-!
## The response graph

A Python response value is either `None`, a byte string, a text string,
or a reference to a heap record: a mapping (`Obj.dict`, insertion order
preserved) or an ordered sequence (`Obj.list`).  References model
Python object identity, so cyclic graphs are expressible; `id(current)`
of the source is the `Nat` address.
-/

inductive Val where
  | none : Val
  | bytes : Bytes → Val
  | str : String → Val
  | ref : Nat → Val
deriving DecidableEq

inductive Obj where
  | dict : List (String × Val) → Obj
  | list : List Val → Obj
deriving DecidableEq

abbrev Heap := List (Nat × Obj)

/-- Heap lookup by identity (first binding wins). -/
def lookupObj (h : Heap) (i : Nat) : Option Obj :=
  match h with
  | [] => Option.none
  | (j, o) :: t => if i = j then some o else lookupObj t i

/-- Mapping lookup, `dict.get`: `Option.none` when the key is absent. -/
def lookupKey (es : List (String × Val)) (k : String) : Option Val :=
  match es with
  | [] => Option.none
  | (k2, v) :: t => if k = k2 then some v else lookupKey t k

/-- Python truthiness of a value (`if file_data:`). -/
def pyTruthy (h : Heap) (v : Val) : Bool :=
  match v with
  | Val.none => false
  | Val.bytes b => !b.isEmpty
  | Val.str s => !s.isEmpty
  | Val.ref i =>
    match lookupObj h i with
    | some (Obj.dict es) => !es.isEmpty
    | some (Obj.list xs) => !xs.isEmpty
    | Option.none => true

/-- `decode_image_data` (src/app.py:193-203): `None` stays absent, raw
bytes pass through unchanged, text is base64-decoded with decode errors
mapped to `None`, anything else is `None`. -/
def decode_image_data (v : Val) : Option Bytes :=
  match v with
  | Val.none => Option.none
  | Val.bytes b => some b
  | Val.str s => b64decode s
  | Val.ref _ => Option.none

/-- `handle_inline` (src/app.py:243-249): read the `data` member of a
container (mapping key, or nothing for a non-record) and decode it. -/
def handle_inline (h : Heap) (v : Val) : Option Bytes :=
  match v with
  | Val.ref i =>
    match lookupObj h i with
    | some (Obj.dict es) => decode_image_data ((lookupKey es "data").getD Val.none)
    | _ => Option.none
  | _ => Option.none

/-- `maybe_file_data` (src/app.py:251-264): a truthy `file_data` member
whose `data` decodes to non-empty bytes. -/
def maybe_file_data (h : Heap) (es : List (String × Val)) : Option Bytes :=
  match lookupKey es "file_data" with
  | Option.none => Option.none
  | some fv =>
    if pyTruthy h fv then
      match handle_inline h fv with
      | some d => if d.isEmpty then Option.none else some d
      | Option.none => Option.none
    else Option.none

/-- The mapping-entry scan of src/app.py:307-312: the first entry keyed
`data`, `image` or `blob` whose value decodes to non-empty bytes. -/
def scanEntries (es : List (String × Val)) : Option Bytes :=
  match es with
  | [] => Option.none
  | (k, v) :: rest =>
    if k = "data" ∨ k = "image" ∨ k = "blob" then
      match decode_image_data v with
      | some d => if d.isEmpty then scanEntries rest else some d
      | Option.none => scanEntries rest
    else scanEntries rest

/-- What a mapping returns from the loop body (src/app.py:297-312):
non-empty `inline_data.data`, else non-empty `file_data.data`, else the
entry scan. -/
def dictYield (h : Heap) (es : List (String × Val)) : Option Bytes :=
  match handle_inline h ((lookupKey es "inline_data").getD Val.none) with
  | some d =>
    if d.isEmpty then
      match maybe_file_data h es with
      | some d2 => some d2
      | Option.none => scanEntries es
    else some d
  | Option.none =>
    match maybe_file_data h es with
    | some d2 => some d2
    | Option.none => scanEntries es

/-- ASCII whitespace stripped by Python `str.strip`. -/
def pyWhitespace (c : Char) : Bool :=
  c = ' ' ∨ c = '\t' ∨ c = '\n' ∨ c = '\r' ∨ c = '\x0b' ∨ c = '\x0c'

/-- Python `str.strip` (leading and trailing whitespace removed). -/
def pyStrip (cs : List Char) : List Char :=
  ((cs.dropWhile pyWhitespace).reverse.dropWhile pyWhitespace).reverse

/-- Membership in the `base64_charset` literal of src/app.py:266 —
letters, digits, `+`, `/`, `=`, and only the two whitespace characters
newline and carriage return. -/
def base64CharsetMember (c : Char) : Bool :=
  decide ('A' ≤ c ∧ c ≤ 'Z') || decide ('a' ≤ c ∧ c ≤ 'z') ||
    decide ('0' ≤ c ∧ c ≤ '9') || c == '+' || c == '/' || c == '=' ||
    c == '\n' || c == '\r'

/-- What a text string returns from the loop body (src/app.py:284-290):
strip, require strictly more than 80 characters all from the charset,
then non-empty decoded bytes. -/
def stringYield (s : String) : Option Bytes :=
  if 80 < (pyStrip s.data).length ∧ (pyStrip s.data).all base64CharsetMember = true then
    match b64decodeList (pyStrip s.data) with
    | some d => if d.isEmpty then Option.none else some d
    | Option.none => Option.none
  else Option.none

/-- The immediate result the loop body produces for one candidate
value, before any enqueueing: non-empty raw bytes are returned as-is,
text goes through the base64 heuristic, a mapping through
`dictYield`; `None` and sequences produce nothing. -/
def localYield (h : Heap) (v : Val) : Option Bytes :=
  match v with
  | Val.none => Option.none
  | Val.bytes b => if b.isEmpty then Option.none else some b
  | Val.str s => stringYield s
  | Val.ref i =>
    match lookupObj h i with
    | some (Obj.dict es) => dictYield h es
    | _ => Option.none

/-- Values enqueued when a candidate yields nothing: all mapping values
in order (src/app.py:307-312), or all sequence elements
(src/app.py:339-340). -/
def childVals (h : Heap) (v : Val) : List Val :=
  match v with
  | Val.ref i =>
    match lookupObj h i with
    | some (Obj.dict es) => es.map (fun e => e.2)
    | some (Obj.list xs) => xs
    | Option.none => []
  | _ => []

def objWeight : Obj → Nat
  | Obj.dict es => es.length
  | Obj.list xs => xs.length

/-- Total arity of heap records not yet visited: the enqueue capacity
still available to the search. -/
def unvisitedWeight (h : Heap) (vis : List Nat) : Nat :=
  match h with
  | [] => 0
  | (j, o) :: t => (if j ∈ vis then 0 else objWeight o) + unvisitedWeight t vis

/-- The `while queue:` loop of `collect_image_bytes`
(src/app.py:268-342), with explicit fuel counting loop iterations.
`Option.none` means the fuel ran out; `some r` is the loop's result.
Strings and bytes are handled before the identity check, exactly as in
the source; a reference is expanded at most once thanks to `vis`. -/
def collectAux (h : Heap) : Nat → List Val → List Nat → Option (Option Bytes)
  | 0, _, _ => Option.none
  | _ + 1, [], _ => some Option.none
  | fuel + 1, current :: queue, vis =>
    match current with
    | Val.ref i =>
      if i ∈ vis then collectAux h fuel queue vis
      else
        match localYield h (Val.ref i) with
        | some d => some (some d)
        | Option.none => collectAux h fuel (queue ++ childVals h (Val.ref i)) (i :: vis)
    | v =>
      match localYield h v with
      | some d => some (some d)
      | Option.none => collectAux h fuel queue vis

/-- The initial queue (src/app.py:240-241): the response unless `None`. -/
def initQueue (r : Val) : List Val :=
  match r with
  | Val.none => []
  | v => [v]

/-- Fuel that always suffices (proved below): one iteration per initial
queue entry, per enqueueable child, plus one to drain the empty queue. -/
def fuelFor (h : Heap) (r : Val) : Nat :=
  (initQueue r).length + unvisitedWeight h [] + 1

/-- `collect_image_bytes` (src/app.py:236-342). -/
def collect_image_bytes (h : Heap) (r : Val) : Option Bytes :=
  (collectAux h (fuelFor h r) (initQueue r) []).getD Option.none

/-!
## Loop-step equations
-/

theorem collectAux_nil (h : Heap) (fuel : Nat) (vis : List Nat) :
    collectAux h (fuel + 1) [] vis = some Option.none := rfl

theorem collectAux_none_step (h : Heap) (fuel : Nat) (queue : List Val) (vis : List Nat) :
    collectAux h (fuel + 1) (Val.none :: queue) vis = collectAux h fuel queue vis := rfl

theorem collectAux_bytes_yield (h : Heap) (fuel : Nat) (b : Bytes) (queue : List Val)
    (vis : List Nat) (hb : b.isEmpty = false) :
    collectAux h (fuel + 1) (Val.bytes b :: queue) vis = some (some b) := by
  have e : collectAux h (fuel + 1) (Val.bytes b :: queue) vis =
      match localYield h (Val.bytes b) with
      | some d => some (some d)
      | Option.none => collectAux h fuel queue vis := rfl
  rw [e]
  simp [localYield, hb]

theorem collectAux_bytes_step (h : Heap) (fuel : Nat) (b : Bytes) (queue : List Val)
    (vis : List Nat) (hb : b.isEmpty = true) :
    collectAux h (fuel + 1) (Val.bytes b :: queue) vis = collectAux h fuel queue vis := by
  have e : collectAux h (fuel + 1) (Val.bytes b :: queue) vis =
      match localYield h (Val.bytes b) with
      | some d => some (some d)
      | Option.none => collectAux h fuel queue vis := rfl
  rw [e]
  simp [localYield, hb]

theorem collectAux_str_yield (h : Heap) (fuel : Nat) (s : String) (queue : List Val)
    (vis : List Nat) (d : Bytes) (hs : stringYield s = some d) :
    collectAux h (fuel + 1) (Val.str s :: queue) vis = some (some d) := by
  have e : collectAux h (fuel + 1) (Val.str s :: queue) vis =
      match localYield h (Val.str s) with
      | some d => some (some d)
      | Option.none => collectAux h fuel queue vis := rfl
  rw [e]
  have e2 : localYield h (Val.str s) = stringYield s := rfl
  rw [e2, hs]

theorem collectAux_str_step (h : Heap) (fuel : Nat) (s : String) (queue : List Val)
    (vis : List Nat) (hs : stringYield s = Option.none) :
    collectAux h (fuel + 1) (Val.str s :: queue) vis = collectAux h fuel queue vis := by
  have e : collectAux h (fuel + 1) (Val.str s :: queue) vis =
      match localYield h (Val.str s) with
      | some d => some (some d)
      | Option.none => collectAux h fuel queue vis := rfl
  rw [e]
  have e2 : localYield h (Val.str s) = stringYield s := rfl
  rw [e2, hs]

theorem collectAux_ref_visited (h : Heap) (fuel : Nat) (i : Nat) (queue : List Val)
    (vis : List Nat) (hv : i ∈ vis) :
    collectAux h (fuel + 1) (Val.ref i :: queue) vis = collectAux h fuel queue vis := by
  have e : collectAux h (fuel + 1) (Val.ref i :: queue) vis =
      if i ∈ vis then collectAux h fuel queue vis
      else
        match localYield h (Val.ref i) with
        | some d => some (some d)
        | Option.none => collectAux h fuel (queue ++ childVals h (Val.ref i)) (i :: vis) := rfl
  rw [e, if_pos hv]

theorem collectAux_ref_yield (h : Heap) (fuel : Nat) (i : Nat) (queue : List Val)
    (vis : List Nat) (d : Bytes) (hv : i ∉ vis) (hy : localYield h (Val.ref i) = some d) :
    collectAux h (fuel + 1) (Val.ref i :: queue) vis = some (some d) := by
  have e : collectAux h (fuel + 1) (Val.ref i :: queue) vis =
      if i ∈ vis then collectAux h fuel queue vis
      else
        match localYield h (Val.ref i) with
        | some d => some (some d)
        | Option.none => collectAux h fuel (queue ++ childVals h (Val.ref i)) (i :: vis) := rfl
  rw [e, if_neg hv, hy]

theorem collectAux_ref_expand (h : Heap) (fuel : Nat) (i : Nat) (queue : List Val)
    (vis : List Nat) (hv : i ∉ vis) (hy : localYield h (Val.ref i) = Option.none) :
    collectAux h (fuel + 1) (Val.ref i :: queue) vis =
      collectAux h fuel (queue ++ childVals h (Val.ref i)) (i :: vis) := by
  have e : collectAux h (fuel + 1) (Val.ref i :: queue) vis =
      if i ∈ vis then collectAux h fuel queue vis
      else
        match localYield h (Val.ref i) with
        | some d => some (some d)
        | Option.none => collectAux h fuel (queue ++ childVals h (Val.ref i)) (i :: vis) := rfl
  rw [e, if_neg hv, hy]

/-!
## Termination: the computed fuel always suffices
-/

theorem unvisitedWeight_cons_le (h : Heap) (i : Nat) (vis : List Nat) :
    unvisitedWeight h (i :: vis) ≤ unvisitedWeight h vis := by
  induction h with
  | nil => exact Nat.le_refl _
  | cons p t ih =>
    obtain ⟨j, o⟩ := p
    simp only [unvisitedWeight]
    have hterm : (if j ∈ i :: vis then 0 else objWeight o) ≤
        (if j ∈ vis then 0 else objWeight o) := by
      by_cases hj : j ∈ vis
      · simp [hj, List.mem_cons]
      · by_cases hji : j = i <;> simp [hj, hji, List.mem_cons]
    omega

theorem unvisitedWeight_lookup (h : Heap) (i : Nat) (vis : List Nat) (obj : Obj)
    (hl : lookupObj h i = some obj) (hvis : i ∉ vis) :
    unvisitedWeight h (i :: vis) + objWeight obj ≤ unvisitedWeight h vis := by
  induction h with
  | nil => simp [lookupObj] at hl
  | cons p t ih =>
    obtain ⟨j, o⟩ := p
    simp only [lookupObj] at hl
    by_cases hij : i = j
    · rw [if_pos hij] at hl
      cases hl
      subst hij
      simp only [unvisitedWeight, List.mem_cons, true_or, if_true, if_pos rfl, if_neg hvis]
      have := unvisitedWeight_cons_le t i vis
      omega
    · rw [if_neg hij] at hl
      have := ih hl
      simp only [unvisitedWeight]
      have hmem : (j ∈ i :: vis) ↔ (j ∈ vis) := by
        simp [List.mem_cons]
        intro hji
        exact absurd hji.symm hij
      by_cases hj : j ∈ vis
      · simp only [if_pos hj, if_pos (hmem.mpr hj)]
        omega
      · simp only [if_neg hj, if_neg (fun hc => hj (hmem.mp hc))]
        omega

theorem childVals_length (h : Heap) (i : Nat) :
    (childVals h (Val.ref i)).length =
      match lookupObj h i with
      | some obj => objWeight obj
      | Option.none => 0 := by
  cases hl : lookupObj h i with
  | none => simp [childVals, hl]
  | some obj => cases obj <;> simp [childVals, hl, objWeight]

theorem collectAux_isSome (h : Heap) :
    ∀ (fuel : Nat) (q : List Val) (vis : List Nat),
      q.length + unvisitedWeight h vis < fuel → (collectAux h fuel q vis).isSome = true := by
  intro fuel
  induction fuel with
  | zero => intro q vis hq; omega
  | succ n ih =>
    intro q vis hq
    cases q with
    | nil => rfl
    | cons current queue =>
      have hq' : queue.length + unvisitedWeight h vis < n := by
        simp only [List.length_cons] at hq
        omega
      cases current with
      | none =>
        rw [collectAux_none_step]
        exact ih queue vis hq'
      | bytes b =>
        cases hb : b.isEmpty with
        | true => rw [collectAux_bytes_step h n b queue vis hb]; exact ih queue vis hq'
        | false => rw [collectAux_bytes_yield h n b queue vis hb]; rfl
      | str s =>
        cases hs : stringYield s with
        | none => rw [collectAux_str_step h n s queue vis hs]; exact ih queue vis hq'
        | some d => rw [collectAux_str_yield h n s queue vis d hs]; rfl
      | ref i =>
        by_cases hv : i ∈ vis
        · rw [collectAux_ref_visited h n i queue vis hv]
          exact ih queue vis hq'
        · cases hy : localYield h (Val.ref i) with
          | some d => rw [collectAux_ref_yield h n i queue vis d hv hy]; rfl
          | none =>
            rw [collectAux_ref_expand h n i queue vis hv hy]
            apply ih
            have hlen := childVals_length h i
            cases hl : lookupObj h i with
            | none =>
              rw [hl] at hlen
              have hm := unvisitedWeight_cons_le h i vis
              simp only [List.length_append, hlen]
              omega
            | some obj =>
              rw [hl] at hlen
              have hm := unvisitedWeight_lookup h i vis obj hl hv
              simp only [List.length_append, hlen]
              omega

/-!
## Soundness of "not found": reachability and yield-freedom
-/

/-- Values reachable from a list of roots by repeatedly following the
children the search enqueues. -/
inductive ReachesFrom (h : Heap) (roots : List Val) : Val → Prop where
  | root (v : Val) (hv : v ∈ roots) : ReachesFrom h roots v
  | child (v w : Val) (hv : ReachesFrom h roots v) (hw : w ∈ childVals h v) :
      ReachesFrom h roots w

theorem reaches_mono (h : Heap) (roots roots' : List Val)
    (hsub : ∀ v ∈ roots, ReachesFrom h roots' v) :
    ∀ w, ReachesFrom h roots w → ReachesFrom h roots' w := by
  intro w hw
  induction hw with
  | root v hv => exact hsub v hv
  | child v w _ hw ih => exact ReachesFrom.child v w ih hw

theorem collectAux_of_noYield (h : Heap) :
    ∀ (fuel : Nat) (q : List Val) (vis : List Nat),
      (∀ v, ReachesFrom h q v → localYield h v = Option.none) →
      collectAux h fuel q vis = Option.none ∨ collectAux h fuel q vis = some Option.none := by
  intro fuel
  induction fuel with
  | zero => intro q vis _; left; rfl
  | succ n ih =>
    intro q vis hno
    cases q with
    | nil => right; rfl
    | cons current queue =>
      have hself : localYield h current = Option.none :=
        hno current (ReachesFrom.root current (List.mem_cons_self current queue))
      have hqueue : ∀ v, ReachesFrom h queue v → localYield h v = Option.none := fun v hv =>
        hno v (reaches_mono h queue (current :: queue)
          (fun u hu => ReachesFrom.root u (List.mem_cons_of_mem current hu)) v hv)
      cases current with
      | none =>
        rw [collectAux_none_step]
        exact ih queue vis hqueue
      | bytes b =>
        have hb : b.isEmpty = true := by
          by_contra hb
          simp [localYield, Bool.not_eq_true] at hself hb
          simp [hb] at hself
        rw [collectAux_bytes_step h n b queue vis hb]
        exact ih queue vis hqueue
      | str s =>
        rw [collectAux_str_step h n s queue vis hself]
        exact ih queue vis hqueue
      | ref i =>
        by_cases hv : i ∈ vis
        · rw [collectAux_ref_visited h n i queue vis hv]
          exact ih queue vis hqueue
        · rw [collectAux_ref_expand h n i queue vis hv hself]
          apply ih
          intro v hv'
          apply hno
          refine reaches_mono h (queue ++ childVals h (Val.ref i)) (Val.ref i :: queue) ?_ v hv'
          intro u hu
          rcases List.mem_append.mp hu with h1 | h2
          · exact ReachesFrom.root u (List.mem_cons_of_mem _ h1)
          · exact ReachesFrom.child (Val.ref i) u
              (ReachesFrom.root _ (List.mem_cons_self _ _)) h2

/-!
## Upscale preconditions, login credentials, history insertion

The calls into Vertex AI, Google Cloud Storage and Streamlit are
external; their outcomes enter the embedding as explicit parameters
(`Option` results), mirroring that every failure of those services is
caught at the call site in the source.
-/

def MODEL_NAME : String := "models/gemini-3-pro-image-preview"

def IMAGEN_MODEL_NAME : String := "imagegeneration@002"

/-- The observable outcome of `upscale_image_with_imagen` up to the
first network interaction: either a `ValueError` raised by a
precondition check, or the call goes on to `aiplatform.init` and the
upscale request. -/
inductive UpscaleOutcome where
  | valueError : String → UpscaleOutcome
  | proceedToNetwork : Bytes → String → String → String → UpscaleOutcome
deriving DecidableEq

/-- `upscale_image_with_imagen` (src/app.py:432-452) up to the network
boundary: the three guard clauses in source order. -/
def upscale_image_with_imagen (img_bytes : Bytes) (project_id region upscale_factor : String) :
    UpscaleOutcome :=
  if img_bytes.isEmpty then
    UpscaleOutcome.valueError "img_bytes が空です。アップスケールできません。"
  else if ¬(upscale_factor = "x2" ∨ upscale_factor = "x4") then
    UpscaleOutcome.valueError "upscale_factor は x2 または x4 を指定してください。"
  else if project_id.isEmpty ∨ region.isEmpty then
    UpscaleOutcome.valueError "project_id または region が指定されていません。"
  else UpscaleOutcome.proceedToNetwork img_bytes project_id region upscale_factor

def reachesNetwork : UpscaleOutcome → Bool
  | UpscaleOutcome.valueError _ => false
  | UpscaleOutcome.proceedToNetwork _ _ _ _ => true

/-- Python truthiness of an optional credential string, as used by
`if secret_username and secret_password:`. -/
def optCredTruthy : Option String → Bool
  | Option.none => false
  | some s => !s.isEmpty

/-- `get_configured_auth_credentials` (src/app.py:145-149), with the
normalized result of `get_secret_auth_credentials` as input: fall back
to the hardcoded pair unless both secrets are present. -/
def get_configured_auth_credentials (su sp : Option String) : String × String :=
  if optCredTruthy su && optCredTruthy sp then (su.getD "", sp.getD "")
  else ("mezamashi", "mezamashi")

/-- The acceptance test of the login form in `require_login`
(src/app.py:172-177): both entered fields must equal the configured
pair. -/
def loginCheck (configured : String × String) (inputU inputP : String) : Bool :=
  inputU == configured.1 && inputP == configured.2

/-- One entry of `st.session_state.history`; fields that only one of
the two producers sets are `Option`s. -/
structure HistoryEntry where
  id : String
  image_bytes : Bytes
  prompt : String
  model : String
  no_text : Option Bool
  aspect_ratio : Option String
  reference_used : Option Bool
  upscale_factor : Option String
  source_image_id : Option String
deriving DecidableEq

/-- The entry `main` inserts at the front of the history
(src/app.py:938-949). -/
def mkGenerationEntry (newId : String) (image_bytes : Bytes) (userPrompt aspect : String)
    (refUsed : Bool) : HistoryEntry :=
  { id := newId, image_bytes := image_bytes, prompt := userPrompt, model := MODEL_NAME,
    no_text := some true, aspect_ratio := some aspect, reference_used := some refUsed,
    upscale_factor := Option.none, source_image_id := Option.none }

/-- The tail of `main` after the generation request returns
(src/app.py:929-949): extract the payload, stop when there is none,
run the storage upload whose result is discarded, then insert the new
entry at the front.  `uploadOutcome` is the pair
`upload_image_to_gcs` would return; it never raises in the source
(every failure path inside it returns `(None, None)`), and the code
ignores it. -/
def mainAfterResponse (h : Heap) (response : Val) (uploadOutcome : Option (String × String))
    (newId userPrompt aspect : String) (refUsed : Bool) (history : List HistoryEntry) :
    Option (List HistoryEntry) :=
  match collect_image_bytes h response with
  | Option.none => Option.none
  | some image_bytes =>
    if image_bytes.isEmpty then Option.none
    else
      let _ := uploadOutcome
      some (mkGenerationEntry newId image_bytes userPrompt aspect refUsed :: history)

/-- The entry `handle_upscale` inserts at the front of the history
(src/app.py:797-808). -/
def mkUpscaleEntry (newId : String) (ub : Bytes) (prompt factor : String)
    (aspect srcId : Option String) : HistoryEntry :=
  { id := newId, image_bytes := ub, prompt := prompt, model := IMAGEN_MODEL_NAME,
    no_text := Option.none, aspect_ratio := aspect, reference_used := Option.none,
    upscale_factor := some factor, source_image_id := srcId }

/-- `handle_upscale` (src/app.py:764-809): missing source bytes,
missing Vertex settings, a failed or empty upscale each leave the
history unchanged; on success the upload result is discarded and the
new entry goes to the front.  `upscaleOutcome = Option.none` models the
caught exception of the upscale call. -/
def handle_upscale (entryBytes : Option Bytes) (vertexSettings : Option (String × String))
    (upscaleOutcome : Option Bytes) (uploadOutcome : Option (String × String))
    (newId prompt factor : String) (aspect srcId : Option String)
    (history : List HistoryEntry) : List HistoryEntry :=
  match entryBytes with
  | Option.none => history
  | some ib =>
    if ib.isEmpty then history
    else
      match vertexSettings with
      | Option.none => history
      | some _ =>
        match upscaleOutcome with
        | Option.none => history
        | some ub =>
          if ub.isEmpty then history
          else
            let _ := uploadOutcome
            mkUpscaleEntry newId ub prompt factor aspect srcId :: history

/-!
## Shared facts about text candidates
-/

theorem stringYield_of_short (s : String) (hs : (pyStrip s.data).length ≤ 80) :
    stringYield s = Option.none := by
  unfold stringYield
  rw [if_neg]
  rintro ⟨h1, -⟩
  omega

theorem stringYield_of_decode (s : String) (d : Bytes) (hlen : 80 < (pyStrip s.data).length)
    (hcs : (pyStrip s.data).all base64CharsetMember = true)
    (hdec : b64decodeList (pyStrip s.data) = some d) (hde : d.isEmpty = false) :
    stringYield s = some d := by
  unfold stringYield
  rw [if_pos ⟨hlen, hcs⟩, hdec]
  simp [hde]

theorem stringYield_of_decodeFail (s : String)
    (hdec : b64decodeList (pyStrip s.data) = Option.none) : stringYield s = Option.none := by
  unfold stringYield
  split_ifs with hcond
  · rw [hdec]
  · rfl

/-- On a bare string response the extractor returns exactly what the
base64 heuristic yields for that string. -/
theorem collect_image_bytes_str (h : Heap) (s : String) :
    collect_image_bytes h (Val.str s) = stringYield s := by
  cases hs : stringYield s with
  | some d =>
    have key := collectAux_str_yield h
      ((initQueue (Val.str s)).length + unvisitedWeight h []) s [] [] d hs
    unfold collect_image_bytes fuelFor
    rw [show initQueue (Val.str s) = [Val.str s] from rfl] at key ⊢
    rw [key]
    rfl
  | none =>
    have key := collectAux_str_step h
      ((initQueue (Val.str s)).length + unvisitedWeight h []) s [] [] hs
    unfold collect_image_bytes fuelFor
    rw [show initQueue (Val.str s) = [Val.str s] from rfl] at key ⊢
    rw [key]
    have hnil : collectAux h ([Val.str s].length + unvisitedWeight h []) [] [] =
        some Option.none := by
      have e : [Val.str s].length + unvisitedWeight h [] = unvisitedWeight h [] + 1 := by
        simp only [List.length_singleton]
        omega
      rw [e]
      exact collectAux_nil h (unvisitedWeight h []) []
    rw [hnil]
    rfl

/-!
## Claims
-/

/-- The heap of the C1 scenario
`{"candidates":[{"content":{"parts":[{"inline_data":{"data": b64(b)}}]}}]}`. -/
def c1Heap (b : Bytes) : Heap :=
  [ (0, Obj.dict [("candidates", Val.ref 1)]),
    (1, Obj.list [Val.ref 2]),
    (2, Obj.dict [("content", Val.ref 3)]),
    (3, Obj.dict [("parts", Val.ref 4)]),
    (4, Obj.list [Val.ref 5]),
    (5, Obj.dict [("inline_data", Val.ref 6)]),
    (6, Obj.dict [("data", Val.str (b64encode b))]) ]

/-- C1: for every non-empty byte string, decoding is the exact inverse
of the encoding used to embed it, and the extractor applied to the
nested inline-data response returns exactly those bytes. -/
theorem c1_inline_data_roundtrip (b : Bytes) (hrange : ∀ x ∈ b, x < 256)
    (hne : b.isEmpty = false) :
    b64decode (b64encode b) = some b ∧
      collect_image_bytes (c1Heap b) (Val.ref 0) = some b := by
  have hrt := b64_roundtrip b hrange
  refine ⟨hrt, ?_⟩
  have hy5 : localYield (c1Heap b) (Val.ref 5) = some b := by
    simp [localYield, c1Heap, lookupObj, dictYield, handle_inline, lookupKey,
      decode_image_data, hrt, hne]
  unfold collect_image_bytes
  rw [show fuelFor (c1Heap b) (Val.ref 0) = 9 from rfl]
  rw [show initQueue (Val.ref 0) = [Val.ref 0] from rfl]
  rw [collectAux_ref_expand (c1Heap b) 8 0 [] [] (by simp) (by rfl)]
  rw [show ([] : List Val) ++ childVals (c1Heap b) (Val.ref 0) = [Val.ref 1] from rfl]
  rw [collectAux_ref_expand (c1Heap b) 7 1 [] [0] (by simp) (by rfl)]
  rw [show ([] : List Val) ++ childVals (c1Heap b) (Val.ref 1) = [Val.ref 2] from rfl]
  rw [collectAux_ref_expand (c1Heap b) 6 2 [] [1, 0] (by simp) (by rfl)]
  rw [show ([] : List Val) ++ childVals (c1Heap b) (Val.ref 2) = [Val.ref 3] from rfl]
  rw [collectAux_ref_expand (c1Heap b) 5 3 [] [2, 1, 0] (by simp) (by rfl)]
  rw [show ([] : List Val) ++ childVals (c1Heap b) (Val.ref 3) = [Val.ref 4] from rfl]
  rw [collectAux_ref_expand (c1Heap b) 4 4 [] [3, 2, 1, 0] (by simp) (by rfl)]
  rw [show ([] : List Val) ++ childVals (c1Heap b) (Val.ref 4) = [Val.ref 5] from rfl]
  rw [collectAux_ref_yield (c1Heap b) 3 5 [] [4, 3, 2, 1, 0] b (by simp) hy5]
  rfl

/-- C1 witness: the PNG-magic bytes through the nested inline-data
response. -/
theorem c1_inline_data_roundtrip_witness :
    b64decode (b64encode [137, 80, 78, 71]) = some [137, 80, 78, 71] ∧
      collect_image_bytes (c1Heap [137, 80, 78, 71]) (Val.ref 0) = some [137, 80, 78, 71] :=
  c1_inline_data_roundtrip [137, 80, 78, 71] (by decide) (by decide)

/-- C4 as stated is false: a stripped text of exactly 80 valid base64
characters is not decoded — the guard requires strictly more than 80 —
so the extractor returns the not-found result even though decoding the
80 characters would have succeeded with non-empty bytes. -/
theorem c4_counterexample :
    (pyStrip (String.mk (List.replicate 80 'A')).data).length = 80 ∧
      b64decodeList (pyStrip (String.mk (List.replicate 80 'A')).data) =
        some (List.replicate 60 0) ∧
      (List.replicate 60 0 : Bytes).isEmpty = false ∧
      collect_image_bytes [] (Val.str (String.mk (List.replicate 80 'A'))) = Option.none := by
  refine ⟨by decide, by decide, by decide, ?_⟩
  rw [collect_image_bytes_str]
  decide

/-- C4 amended: a stripped text of at most 80 characters — exactly 80
as well as 79 — is never attempted as base64 and is dropped; only a
stripped text of strictly more than 80 charset characters that decodes
to non-empty bytes is decoded and returned. -/
theorem c4_length_threshold (h : Heap) (s t : String)
    (hs : (pyStrip s.data).length ≤ 80)
    (ht : 80 < (pyStrip t.data).length)
    (htc : (pyStrip t.data).all base64CharsetMember = true)
    (d : Bytes) (hd : b64decodeList (pyStrip t.data) = some d) (hde : d.isEmpty = false) :
    collect_image_bytes h (Val.str s) = Option.none ∧
      collect_image_bytes h (Val.str t) = some d := by
  constructor
  · rw [collect_image_bytes_str, stringYield_of_short s hs]
  · rw [collect_image_bytes_str, stringYield_of_decode t d ht htc hd hde]

/-- C4 amended witness: 80 characters dropped, 84 characters decoded. -/
theorem c4_length_threshold_witness :
    collect_image_bytes [] (Val.str (String.mk (List.replicate 80 'A'))) = Option.none ∧
      collect_image_bytes [] (Val.str (String.mk (List.replicate 84 'A'))) =
        some (List.replicate 63 0) :=
  c4_length_threshold [] (String.mk (List.replicate 80 'A')) (String.mk (List.replicate 84 'A'))
    (by decide) (by decide) (by decide) (List.replicate 63 0) (by decide) (by decide)

/-- Modelled from the spec's words, for comparison only: the charset C5
claims, also admitting the whitespace characters space and tab. -/
def claimedCharsetMember (c : Char) : Bool :=
  base64CharsetMember c || c == ' ' || c == '\t'

/-- C5 as stated is false: a stripped text of 85 characters, all in the
claimed charset (it contains one interior space), which base64-decoding
would successfully turn into non-empty bytes, is nevertheless dropped —
the source charset admits only newline and carriage return, not space
or tab, so the decode is never attempted and the extractor returns the
not-found result. -/
theorem c5_counterexample :
    (pyStrip (String.mk (List.replicate 40 'A' ++ [' '] ++ List.replicate 44 'A')).data).length
        = 85 ∧
      ((pyStrip (String.mk (List.replicate 40 'A' ++ [' '] ++
        List.replicate 44 'A')).data).all claimedCharsetMember = true) ∧
      b64decodeList (pyStrip (String.mk (List.replicate 40 'A' ++ [' '] ++
        List.replicate 44 'A')).data) = some (List.replicate 63 0) ∧
      (List.replicate 63 0 : Bytes).isEmpty = false ∧
      collect_image_bytes [] (Val.str (String.mk (List.replicate 40 'A' ++ [' '] ++
        List.replicate 44 'A'))) = Option.none := by
  refine ⟨by decide, by decide, by decide, by decide, ?_⟩
  rw [collect_image_bytes_str]
  decide

/-- C5 amended: the admissible whitespace inside the stripped text is
only newline and carriage return (the source charset), not space or
tab; under that charset a stripped text of more than 80 characters that
decodes to non-empty bytes is decoded and the bytes returned. -/
theorem c5_charset_decode (h : Heap) (s : String) (d : Bytes)
    (hlen : 80 < (pyStrip s.data).length)
    (hcs : (pyStrip s.data).all base64CharsetMember = true)
    (hdec : b64decodeList (pyStrip s.data) = some d) (hde : d.isEmpty = false) :
    collect_image_bytes h (Val.str s) = some d := by
  rw [collect_image_bytes_str, stringYield_of_decode s d hlen hcs hdec hde]

/-- C5 amended witness: an interior newline is tolerated and the text
decoded. -/
theorem c5_charset_decode_witness :
    collect_image_bytes []
        (Val.str (String.mk (List.replicate 40 'A' ++ ['\n'] ++ List.replicate 44 'A'))) =
      some (List.replicate 63 0) :=
  c5_charset_decode [] (String.mk (List.replicate 40 'A' ++ ['\n'] ++ List.replicate 44 'A'))
    (List.replicate 63 0) (by decide) (by decide) (by decide) (by decide)

/-- The heap of the C6 scenario: a sequence holding first an
undecodable long base64-looking text, then a raw payload. -/
def c6Heap (s : String) (b : Bytes) : Heap := [(0, Obj.list [Val.str s, Val.bytes b])]

/-- C6: a long, charset-only but undecodable text does not abort the
search — the decode failure is swallowed and the payload found later in
the structure is still returned. -/
theorem c6_decode_failure_continues (s : String) (b : Bytes) (hb : b.isEmpty = false)
    (hlen : 80 < (pyStrip s.data).length)
    (hcs : (pyStrip s.data).all base64CharsetMember = true)
    (hdec : b64decodeList (pyStrip s.data) = Option.none) :
    collect_image_bytes (c6Heap s b) (Val.ref 0) = some b := by
  have hsy : stringYield s = Option.none := stringYield_of_decodeFail s hdec
  unfold collect_image_bytes
  rw [show fuelFor (c6Heap s b) (Val.ref 0) = 4 from rfl]
  rw [show initQueue (Val.ref 0) = [Val.ref 0] from rfl]
  rw [collectAux_ref_expand (c6Heap s b) 3 0 [] [] (by simp) (by rfl)]
  rw [show ([] : List Val) ++ childVals (c6Heap s b) (Val.ref 0) =
    [Val.str s, Val.bytes b] from rfl]
  rw [collectAux_str_step (c6Heap s b) 2 s [Val.bytes b] [0] hsy]
  rw [collectAux_bytes_yield (c6Heap s b) 1 b [] [0] hb]
  rfl

/-- C6 witness: 81 letters `A` (an odd leftover, so the decode raises
in the source and is caught) followed by a one-byte payload. -/
theorem c6_decode_failure_continues_witness :
    collect_image_bytes (c6Heap (String.mk (List.replicate 81 'A')) [7]) (Val.ref 0) =
      some [7] :=
  c6_decode_failure_continues (String.mk (List.replicate 81 'A')) [7]
    (by decide) (by decide) (by decide) (by decide)

/-- C2: for every response in whose reachable graph no value yields an
image payload (no non-empty bytes, no decodable long base64 text, no
decodable inline-data, file-data or data/image/blob member), the
extractor returns the not-found result.  The embedding is a total
function, mirroring that every decode error in the source is caught and
absence is signalled as `None`, never an exception. -/
theorem c2_no_image_not_found (h : Heap) (r : Val)
    (hno : ∀ v, ReachesFrom h (initQueue r) v → localYield h v = Option.none) :
    collect_image_bytes h r = Option.none := by
  unfold collect_image_bytes
  rcases collectAux_of_noYield h (fuelFor h r) (initQueue r) [] hno with he | he <;> rw [he] <;> rfl

theorem reach_emptyMap (v : Val)
    (hv : ReachesFrom [(0, Obj.dict [])] [Val.ref 0] v) : v = Val.ref 0 := by
  induction hv with
  | root u hu => simpa using hu
  | child u w _ hw ih =>
    rw [ih] at hw
    simp [childVals, lookupObj] at hw

/-- C2 witness: the empty mapping scenario, response `{}`. -/
theorem c2_no_image_not_found_witness :
    collect_image_bytes [(0, Obj.dict [])] (Val.ref 0) = Option.none :=
  c2_no_image_not_found [(0, Obj.dict [])] (Val.ref 0)
    (fun v hv => by rw [reach_emptyMap v hv]; rfl)

/-- C3: for every response over every heap — cyclic graphs included —
the breadth-first search finishes within the statically computed fuel
`fuelFor` (one iteration per initial queue entry plus one per
enqueueable child of each record, each record being expanded at most
once thanks to the visited set), so the loop terminates and
`collect_image_bytes` is its genuine result. -/
theorem c3_extractor_terminates (h : Heap) (r : Val) :
    (collectAux h (fuelFor h r) (initQueue r) []).isSome = true := by
  apply collectAux_isSome
  unfold fuelFor
  omega

/-- C7: a response that is itself a non-empty byte string is returned
unchanged, and already with fuel for a single loop iteration, i.e.
immediately, before any other candidate could be expanded. -/
theorem c7_raw_bytes_immediate (h : Heap) (b : Bytes) (hb : b.isEmpty = false) :
    collect_image_bytes h (Val.bytes b) = some b ∧
      collectAux h 1 [Val.bytes b] [] = some (some b) := by
  constructor
  · have key := collectAux_bytes_yield h
      ((initQueue (Val.bytes b)).length + unvisitedWeight h []) b [] [] hb
    unfold collect_image_bytes fuelFor
    rw [show initQueue (Val.bytes b) = [Val.bytes b] from rfl] at key ⊢
    rw [key]
    rfl
  · exact collectAux_bytes_yield h 0 b [] [] hb

/-- C7 witness: the PNG-magic scenario. -/
theorem c7_raw_bytes_immediate_witness :
    collect_image_bytes [] (Val.bytes [137, 80, 78, 71]) = some [137, 80, 78, 71] ∧
      collectAux [] 1 [Val.bytes [137, 80, 78, 71]] [] = some (some [137, 80, 78, 71]) :=
  c7_raw_bytes_immediate [] [137, 80, 78, 71] (by decide)

/-- C8: each precondition violation — empty source bytes, an upscale
factor outside x2/x4, or a missing project/region — makes
`upscale_image_with_imagen` raise a ValueError before the network
boundary is reached. -/
theorem c8_upscale_precondition (img : Bytes) (pid region factor : String)
    (hpre : img.isEmpty = true ∨ ¬(factor = "x2" ∨ factor = "x4") ∨
      pid.isEmpty = true ∨ region.isEmpty = true) :
    reachesNetwork (upscale_image_with_imagen img pid region factor) = false := by
  unfold upscale_image_with_imagen
  split_ifs with h1 h2 h3 <;> try rfl
  exfalso
  rcases hpre with hp | hp | hp | hp
  · exact h1 hp
  · exact hp h2
  · exact h3 (Or.inl hp)
  · exact h3 (Or.inr hp)

/-- C8 witness: factor x3 is rejected before any network call. -/
theorem c8_upscale_precondition_witness :
    reachesNetwork (upscale_image_with_imagen [1] "proj" "asia-northeast1" "x3") = false :=
  c8_upscale_precondition [1] "proj" "asia-northeast1" "x3" (Or.inr (Or.inl (by decide)))

/-- C9: once a payload is extracted, the new history entry is inserted
at the front whatever the storage-upload outcome is (the outcome is
universally quantified and absent from the result), for the generation
path of `main` and for the upscale path of `handle_upscale` alike. -/
theorem c9_history_insert_despite_upload (h : Heap) (response : Val) (b : Bytes)
    (hc : collect_image_bytes h response = some b) (hb : b.isEmpty = false)
    (newId newId2 userPrompt aspect factor : String) (refUsed : Bool)
    (history : List HistoryEntry) (settings : String × String) (ub : Bytes)
    (hub : ub.isEmpty = false) (aspect2 srcId : Option String) :
    (∀ uploadOutcome,
      mainAfterResponse h response uploadOutcome newId userPrompt aspect refUsed history =
        some (mkGenerationEntry newId b userPrompt aspect refUsed :: history)) ∧
    (∀ uploadOutcome,
      handle_upscale (some b) (some settings) (some ub) uploadOutcome
          newId2 userPrompt factor aspect2 srcId history =
        mkUpscaleEntry newId2 ub userPrompt factor aspect2 srcId :: history) := by
  constructor
  · intro u
    simp [mainAfterResponse, hc, hb]
  · intro u
    simp [handle_upscale, hb, hub]

/-- C9 witness: a successful extraction with a failed upload
(`Option.none`) still prepends the entry. -/
theorem c9_history_insert_despite_upload_witness :
    (∀ uploadOutcome,
      mainAfterResponse [] (Val.bytes [1]) uploadOutcome "id1" "p" "16:9" false [] =
        some (mkGenerationEntry "id1" [1] "p" "16:9" false :: [])) ∧
    (∀ uploadOutcome,
      handle_upscale (some [1]) (some ("proj", "region")) (some [2, 3]) uploadOutcome
          "id2" "p" "x2" (some "16:9") (some "id1") [] =
        mkUpscaleEntry "id2" [2, 3] "p" "x2" (some "16:9") (some "id1") :: []) :=
  c9_history_insert_despite_upload [] (Val.bytes [1]) [1] (by decide) (by decide)
    "id1" "id2" "p" "16:9" "x2" false [] ("proj", "region") [2, 3] (by decide)
    (some "16:9") (some "id1")

/-- C10: when the secrets store yields no username or no password, the
configured credentials are exactly the hardcoded pair, and the login
gate accepts that fixed username and password. -/
theorem c10_default_credentials (su sp : Option String)
    (hm : su = Option.none ∨ sp = Option.none) :
    get_configured_auth_credentials su sp = ("mezamashi", "mezamashi") ∧
      loginCheck (get_configured_auth_credentials su sp) "mezamashi" "mezamashi" = true := by
  have hfix : get_configured_auth_credentials su sp = ("mezamashi", "mezamashi") := by
    unfold get_configured_auth_credentials
    rcases hm with hm | hm <;> subst hm <;> simp [optCredTruthy]
  exact ⟨hfix, by rw [hfix]; rfl⟩

/-- C10 witness: only a password configured. -/
theorem c10_default_credentials_witness :
    get_configured_auth_credentials Option.none (some "secret") = ("mezamashi", "mezamashi") ∧
      loginCheck (get_configured_auth_credentials Option.none (some "secret"))
        "mezamashi" "mezamashi" = true :=
  c10_default_credentials Option.none (some "secret") (Or.inl rfl)

end FreedomStandard
